/-
Verification of the LogBull JavaScript client core (logbull-js).

This file gives a shallow embedding, in Lean 4, of the core of the
logbull-js repository: the monotonic unique-timestamp generators
(src/core/timestamp.ts and the near-identical copy bundled with the pino
transport), the RFC3339Nano formatter, the message formatter
(src/internal/formatting.ts), and the asynchronous batch sender
(the Sender class: bounded queue, batch taking, HTTP dispatch with
in-flight accounting, rejected-log reporting, and shutdown).

JavaScript strings are modelled as lists of characters, JavaScript
numbers holding integer quantities as Nat or Int, and the runtime's
clock readings (Date.now, process.hrtime.bigint) as explicit inputs.
Fallible control flow (throw / try / catch / finally) is modelled with
Except.  Each definition mirrors the control flow of the source
function it embeds; theorems then state the specified properties.
-/

import Mathlib

namespace LogBull

/-! ### Constants (sender.ts lines 155-158) -/

def BATCH_SIZE : Nat := 1000

def QUEUE_CAPACITY : Nat := 10000

def MAX_MESSAGE_LENGTH : Nat := 10000

/-! ### Monotonic timestamp generators

Two near-identical generators exist in the repository: one in
src/core/timestamp.ts (used by the winston transport and exported from
the core), and one bundled with the pino transport (src/unnamed/part_005
lines 200-226).  Both keep a module-level `lastTimestampNs` and apply
the same monotonic step to a clock-derived candidate:

    if (currentNsNumber <= lastTimestampNs) lastTimestampNs += 1;
    else lastTimestampNs = currentNsNumber;

The core variant derives its candidate directly from
`process.hrtime.bigint()`; the pino variant captures a wall-clock
baseline (`Date.now()`) and a monotonic baseline on the first call and
derives the candidate as baseline + elapsed. -/

/-- Definition of the shared monotonic step (timestamp.ts lines 18-22, part_005
lines 219-223): `last` is the module-level `lastTimestampNs`, `candidate`
the clock-derived nanosecond value of this call; the result is the new
`lastTimestampNs`, which is also the value emitted by the call. -/
def tsStep (last candidate : Int) : Int :=
  if candidate ≤ last then last + 1 else candidate

/-- Core generator of src/core/timestamp.ts (lines 12-25): the candidate is
the raw `process.hrtime.bigint()` reading converted to Number, with no
wall-clock baseline.  Returns the emitted nanosecond value (the new
`lastTimestampNs`). -/
def genTsCore (last currentNsNumber : Int) : Int :=
  if currentNsNumber ≤ last then last + 1 else currentNsNumber

/-- Runs the monotonic step over a whole sequence of clock-derived
candidates, emitting each call's `lastTimestampNs`; this is the state
evolution of repeated calls to generateUniqueTimestamp. -/
def tsRun (last : Int) : List Int → List Int
  | [] => []
  | c :: cs => tsStep last c :: tsRun (tsStep last c) cs

/-- Module-level state of the pino-transport generator (part_005 lines
191-193): `lastTimestampNs`, `baselineWallClockMs`, `baselineHrtimeNs`
(null before the first call). -/
structure TsState where
  lastTimestampNs : Int
  baselineWallClockMs : Int
  baselineHrtimeNs : Option Int
deriving DecidableEq, Repr

/-- Initial module state of the pino-transport generator. -/
def initialTsState : TsState := ⟨0, 0, none⟩

/-- Clock readings a single call to the pino-transport generator can
perform: `nowMs` is `Date.now()` and `hrInit` the `process.hrtime.bigint()`
reading taken while capturing the baseline (both read only on the first
call); `hrNow` is the `process.hrtime.bigint()` reading every call takes. -/
structure ClockReading where
  nowMs : Int
  hrInit : Int
  hrNow : Int
deriving DecidableEq, Repr

/-- Baseline capture of the pino-transport generator (part_005 lines
202-205): on the first call the wall-clock and monotonic baselines are
stored; afterwards the state is untouched. -/
def pinoInitBaseline (st : TsState) (r : ClockReading) : TsState :=
  match st.baselineHrtimeNs with
  | none => { st with baselineWallClockMs := r.nowMs, baselineHrtimeNs := some r.hrInit }
  | some _ => st

/-- Candidate computation of the pino-transport generator (part_005 lines
208-216): baseline wall-clock milliseconds scaled to nanoseconds plus the
monotonic time elapsed since baseline capture. -/
def pinoCandidate (st : TsState) (r : ClockReading) : Int :=
  let st1 := pinoInitBaseline st r
  st1.baselineWallClockMs * 1000000 + (r.hrNow - st1.baselineHrtimeNs.getD 0)

/-- Modelling of one call to the pino-transport generateUniqueTimestamp
(part_005 lines 200-226): capture the baseline if absent, compute the
candidate, apply the monotonic step, return the new state and the
emitted nanosecond value. -/
def genTsPino (st : TsState) (r : ClockReading) : TsState × Int :=
  let st1 := pinoInitBaseline st r
  let candidate := pinoCandidate st r
  let newLast := if candidate ≤ st1.lastTimestampNs then st1.lastTimestampNs + 1 else candidate
  ({ st1 with lastTimestampNs := newLast }, newLast)

/-- State of the pino-transport generator after a sequence of calls with
the given clock readings. -/
def genTsPinoRunState (st : TsState) : List ClockReading → TsState
  | [] => st
  | r :: rs => genTsPinoRunState (genTsPino st r).1 rs

/-! ### Helper lemmas about the monotonic step -/

/-- The monotonic step always moves strictly upward. -/
theorem tsStep_gt (last c : Int) : last < tsStep last c := by
  unfold tsStep
  split <;> omega

/-- Every emission of a run is bounded below by the strictly growing state. -/
theorem tsRun_chain (last : Int) (cs : List Int) :
    List.Chain' (fun a b => a < b) (last :: tsRun last cs) := by
  induction cs generalizing last with
  | nil => simp [tsRun]
  | cons c cs ih =>
    have h := ih (tsStep last c)
    simpa [tsRun, tsStep_gt] using h

/-- C1: for every sequence of calls to generateUniqueTimestamp, under every
sequence of clock-derived candidates (repeating or decreasing included),
the emitted nanosecond values are pairwise distinct and strictly
increasing; each call emits the candidate when it exceeds the last
emitted value and the last emitted value + 1 otherwise, and both
generator variants apply exactly this step. -/
theorem generateUniqueTimestamp_strictly_increasing (last : Int) (cs : List Int) :
    List.Pairwise (fun a b => a < b) (tsRun last cs) ∧
    List.Chain' (fun a b => a < b) (last :: tsRun last cs) ∧
    (∀ l c : Int, (l < c → tsStep l c = c) ∧ (c ≤ l → tsStep l c = l + 1)) ∧
    (∀ l c : Int, genTsCore l c = tsStep l c) ∧
    (∀ (st : TsState) (r : ClockReading),
      (genTsPino st r).2 = tsStep st.lastTimestampNs (pinoCandidate st r)) := by
  refine ⟨?_, tsRun_chain last cs, ?_, ?_, ?_⟩
  · exact (List.pairwise_cons.mp (List.chain'_iff_pairwise.mp (tsRun_chain last cs))).2
  · intro l c
    constructor
    · intro h
      unfold tsStep
      split <;> omega
    · intro h
      unfold tsStep
      split <;> omega
  · intro l c
    rfl
  · intro st r
    cases h : st.baselineHrtimeNs <;>
      simp [genTsPino, tsStep, pinoCandidate, pinoInitBaseline, h]

/-- Helper: one call of the pino generator never changes an already
captured baseline. -/
theorem genTsPino_baseline_stable (st : TsState) (r : ClockReading) (b : Int)
    (hb : st.baselineHrtimeNs = some b) :
    (genTsPino st r).1.baselineHrtimeNs = some b ∧
    (genTsPino st r).1.baselineWallClockMs = st.baselineWallClockMs := by
  simp [genTsPino, pinoInitBaseline, hb]

/-- Helper: a whole run of the pino generator never changes an already
captured baseline. -/
theorem genTsPinoRunState_baseline_stable (rs : List ClockReading) (st : TsState) (b : Int)
    (hb : st.baselineHrtimeNs = some b) :
    (genTsPinoRunState st rs).baselineHrtimeNs = some b ∧
    (genTsPinoRunState st rs).baselineWallClockMs = st.baselineWallClockMs := by
  induction rs generalizing st with
  | nil => exact ⟨hb, rfl⟩
  | cons r rs ih =>
    have h1 := genTsPino_baseline_stable st r b hb
    have h2 := ih (genTsPino st r).1 h1.1
    exact ⟨h2.1, h2.2.trans h1.2⟩

/-- C6 (amended): in the pino-transport generator, once the baseline is
captured it is never changed by later calls, on the first call the
baseline is set from that call's Date.now() and hrtime readings, and
every call whose candidate (baseline wall-clock scaled to nanoseconds
plus monotonic time elapsed since baseline capture) exceeds the last
emitted value emits exactly that candidate. -/
theorem pino_emits_wallclock_baseline (st : TsState) (r : ClockReading)
    (rs : List ClockReading) (b : Int)
    (hb : st.baselineHrtimeNs = some b) :
    (st.lastTimestampNs < st.baselineWallClockMs * 1000000 + (r.hrNow - b) →
      (genTsPino st r).2 = st.baselineWallClockMs * 1000000 + (r.hrNow - b)) ∧
    (genTsPino st r).1.baselineHrtimeNs = some b ∧
    (genTsPino st r).1.baselineWallClockMs = st.baselineWallClockMs ∧
    (genTsPinoRunState st rs).baselineHrtimeNs = some b ∧
    (genTsPinoRunState st rs).baselineWallClockMs = st.baselineWallClockMs ∧
    (∀ (st0 : TsState) (r0 : ClockReading), st0.baselineHrtimeNs = none →
      (genTsPino st0 r0).1.baselineWallClockMs = r0.nowMs ∧
      (genTsPino st0 r0).1.baselineHrtimeNs = some r0.hrInit ∧
      (st0.lastTimestampNs < r0.nowMs * 1000000 + (r0.hrNow - r0.hrInit) →
        (genTsPino st0 r0).2 = r0.nowMs * 1000000 + (r0.hrNow - r0.hrInit))) := by
  have hrun := genTsPinoRunState_baseline_stable rs st b hb
  have hone := genTsPino_baseline_stable st r b hb
  refine ⟨?_, hone.1, hone.2, hrun.1, hrun.2, ?_⟩
  · intro hlt
    simp only [genTsPino, pinoCandidate, pinoInitBaseline, hb]
    simp only [Option.getD_some]
    split <;> omega
  · intro st0 r0 h0
    refine ⟨by simp [genTsPino, pinoInitBaseline, h0], by simp [genTsPino, pinoInitBaseline, h0], ?_⟩
    intro hlt
    simp only [genTsPino, pinoCandidate, pinoInitBaseline, h0]
    simp only [Option.getD_some]
    split <;> omega

/-- Witness for C6 at a concrete state and reading: baseline 5 ms / 3 ns,
last emitted 0, current hrtime 10 ns, so the candidate 5000007 exceeds 0
and is emitted unchanged. -/
theorem pino_emits_wallclock_baseline_witness :
    (genTsPino (TsState.mk 0 5 (some 3)) (ClockReading.mk 9 4 10)).2
        = 5 * 1000000 + (10 - 3) ∧
    (genTsPino (TsState.mk 0 5 (some 3)) (ClockReading.mk 9 4 10)).1.baselineHrtimeNs
        = some 3 := by
  have h := pino_emits_wallclock_baseline (TsState.mk 0 5 (some 3))
    (ClockReading.mk 9 4 10) [] 3 rfl
  exact ⟨h.1 (by decide), h.2.1⟩

/-- Counterexample for C6 as stated: the core generator
(src/core/timestamp.ts) is not wall-clock anchored.  At a first call
where Date.now() reads 1000 ms and both hrtime readings are 5 ns, the
claimed value, baseline plus elapsed = 1000 * 1000000 + (5 - 5),
exceeds the last emitted value 0, yet the core generator emits the raw
monotonic reading 5 instead. -/
theorem core_not_wallclock_counterexample :
    (0 : Int) < 1000 * 1000000 + (5 - 5) ∧
    genTsCore 0 5 = 5 ∧
    genTsCore 0 5 ≠ 1000 * 1000000 + (5 - 5) := by
  refine ⟨by decide, by decide, by decide⟩

/-! ### The asynchronous batch sender (sender.ts)

The Sender's mutable state is its log queue, the stopped flag, the
periodic-interval handle and the in-flight request counter.  Log entries
are opaque to the queue logic, so the model is parametric in the entry
type. -/

/-- State of the Sender class (sender.ts lines 160-165): `logQueue` is
the pending-entry buffer, `stopped` the shutdown flag, `intervalActive`
whether the periodic batch timer is installed (`intervalId !== null`),
and `inFlightRequests` the dispatch counter. -/
structure Sender (α : Type) where
  logQueue : List α
  stopped : Bool
  intervalActive : Bool
  inFlightRequests : Nat
deriving DecidableEq, Repr

/-- State of a freshly constructed Sender (sender.ts lines 167-170): empty
queue, running, periodic batch processor started. -/
def newSender (α : Type) : Sender α := ⟨[], false, true, 0⟩

/-- Definition of Sender.addLog (sender.ts lines 175-186): a no-op when the
sender is stopped or the queue already holds at least QUEUE_CAPACITY
entries (the incoming entry is dropped with a console diagnostic);
otherwise the entry is pushed at the back of the queue. -/
def addLog {α : Type} (s : Sender α) (e : α) : Sender α :=
  if s.stopped = true then s
  else if QUEUE_CAPACITY ≤ s.logQueue.length then s
  else { s with logQueue := s.logQueue ++ [e] }

/-- Definition of Sender.sendBatch (sender.ts lines 240-250): when the queue
is empty nothing happens; otherwise the first BATCH_SIZE entries are
spliced off the front and handed to sendHTTPRequest fire-and-forget.
The result is the new sender state together with the batch handed to
the dispatcher. -/
def sendBatch {α : Type} (s : Sender α) : Sender α × List α :=
  if s.logQueue.length = 0 then (s, [])
  else ({ s with logQueue := s.logQueue.drop BATCH_SIZE }, s.logQueue.take BATCH_SIZE)

/-- Definition of Sender.flush (sender.ts lines 191-193): forces one
sendBatch cycle. -/
def flush {α : Type} (s : Sender α) : Sender α × List α :=
  sendBatch s

/-- Definition of the synchronous part of Sender.shutdown (sender.ts lines
198-221): an immediate no-op when already stopped; otherwise it sets the
stopped flag, clears the periodic interval and forces one final
sendBatch cycle.  The subsequent bounded wait loop only reads
`inFlightRequests` and changes no sender state, so it is not part of the
state transition. -/
def shutdown {α : Type} (s : Sender α) : Sender α × List α :=
  if s.stopped = true then (s, [])
  else sendBatch { s with stopped := true, intervalActive := false }

/-- C3: addLog never grows the queue beyond QUEUE_CAPACITY, is the
identity when the sender is stopped or the queue is full at the moment
of the call (the newest entry is dropped), and enqueuing any sequence of
entries into a fresh sender retains exactly the first QUEUE_CAPACITY of
them, so QUEUE_CAPACITY + 1 enqueues leave exactly QUEUE_CAPACITY
entries retrievable. -/
theorem addLog_capacity {α : Type} (s : Sender α) (e : α) (es : List α) :
    (addLog s e).logQueue.length ≤ max s.logQueue.length QUEUE_CAPACITY ∧
    (s.stopped = true → addLog s e = s) ∧
    (QUEUE_CAPACITY ≤ s.logQueue.length → addLog s e = s) ∧
    (s.stopped = false → s.logQueue.length ≤ QUEUE_CAPACITY →
      (es.foldl addLog s).logQueue = (s.logQueue ++ es).take QUEUE_CAPACITY) ∧
    (es.length = QUEUE_CAPACITY + 1 →
      (es.foldl addLog (newSender α)).logQueue.length = QUEUE_CAPACITY) := by
  have hfold : ∀ (l : List α) (t : Sender α), t.stopped = false →
      t.logQueue.length ≤ QUEUE_CAPACITY →
      (l.foldl addLog t).logQueue = (t.logQueue ++ l).take QUEUE_CAPACITY := by
    intro l
    induction l with
    | nil =>
      intro t _ hlen
      simp [List.take_of_length_le hlen]
    | cons x xs ih =>
      intro t hstop hlen
      by_cases hful : QUEUE_CAPACITY ≤ t.logQueue.length
      · have heq : t.logQueue.length = QUEUE_CAPACITY := le_antisymm hlen hful
        have hid : addLog t x = t := by
          unfold addLog
          rw [hstop]
          simp [hful]
        rw [List.foldl_cons, hid, ih t hstop hlen]
        rw [List.take_append_eq_append_take, List.take_append_eq_append_take]
        simp [heq, List.take_of_length_le (le_of_eq heq)]
      · push_neg at hful
        have hadd : addLog t x = { t with logQueue := t.logQueue ++ [x] } := by
          unfold addLog
          rw [hstop]
          simp [Nat.not_le.mpr hful]
        rw [List.foldl_cons, hadd,
          ih { t with logQueue := t.logQueue ++ [x] } hstop (by simpa using hful)]
        simp
  refine ⟨?_, ?_, ?_, hfold es s, ?_⟩
  · unfold addLog
    split
    · omega
    · split
      · omega
      · simp only [List.length_append, List.length_cons, List.length_nil]
        omega
  · intro h
    unfold addLog
    rw [h]
    simp
  · intro h
    unfold addLog
    split
    · rfl
    · simp [h]
  · intro hlen
    rw [hfold es (newSender α) rfl (by simp [newSender])]
    simp [newSender, hlen]

/-- Helper: sendBatch always returns the BATCH_SIZE-prefix of the queue
as the dispatched batch, keeps the matching suffix, and leaves every
other field unchanged. -/
theorem sendBatch_eq {α : Type} (s : Sender α) :
    (sendBatch s).2 = s.logQueue.take BATCH_SIZE ∧
    (sendBatch s).1.logQueue = s.logQueue.drop BATCH_SIZE ∧
    (sendBatch s).1.stopped = s.stopped ∧
    (sendBatch s).1.intervalActive = s.intervalActive ∧
    (sendBatch s).1.inFlightRequests = s.inFlightRequests := by
  unfold sendBatch
  split
  · rename_i h
    rw [List.length_eq_zero.mp h]
    exact ⟨rfl, rfl, rfl, rfl, rfl⟩
  · exact ⟨rfl, rfl, rfl, rfl, rfl⟩

/-- Helper: addLog on a running non-full sender appends the entry at the
back of the queue. -/
theorem addLog_push {α : Type} (s : Sender α) (e : α) (hstop : s.stopped = false)
    (hlen : s.logQueue.length < QUEUE_CAPACITY) :
    addLog s e = { s with logQueue := s.logQueue ++ [e] } := by
  unfold addLog
  rw [hstop]
  simp [Nat.not_le.mpr hlen]

/-- C4: sendBatch removes and dispatches exactly the first
min(length, BATCH_SIZE) entries of the queue in insertion order and
leaves the remaining suffix unchanged: the old queue is the dispatched
batch followed by the new queue, an empty queue dispatches nothing, and
enqueuing one entry into an empty running sender and immediately taking
a batch dispatches exactly that entry and empties the queue. -/
theorem sendBatch_take_front {α : Type} (s : Sender α) (e : α) :
    (sendBatch s).2 = s.logQueue.take BATCH_SIZE ∧
    (sendBatch s).1.logQueue = s.logQueue.drop BATCH_SIZE ∧
    (sendBatch s).2 ++ (sendBatch s).1.logQueue = s.logQueue ∧
    (sendBatch s).2.length = min s.logQueue.length BATCH_SIZE ∧
    (s.logQueue = [] → sendBatch s = (s, [])) ∧
    (s.logQueue = [] → s.stopped = false →
      (sendBatch (addLog s e)).2 = [e] ∧ (sendBatch (addLog s e)).1.logQueue = []) := by
  obtain ⟨htake, hdrop, -, -, -⟩ := sendBatch_eq s
  refine ⟨htake, hdrop, ?_, ?_, ?_, ?_⟩
  · rw [htake, hdrop, List.take_append_drop]
  · rw [htake, List.length_take, Nat.min_comm]
  · intro h
    unfold sendBatch
    simp [h]
  · intro hq hstop
    have hadd : addLog s e = { s with logQueue := [e] } := by
      rw [addLog_push s e hstop (by simp [hq, QUEUE_CAPACITY]), hq]
      rfl
    rw [hadd]
    constructor
    · unfold sendBatch
      simp [BATCH_SIZE]
    · unfold sendBatch
      simp [BATCH_SIZE]

/-- Helper: shutdown of a running sender is the final sendBatch of the
frozen sender. -/
theorem shutdown_running {α : Type} (s : Sender α) (h : s.stopped = false) :
    shutdown s = sendBatch { s with stopped := true, intervalActive := false } := by
  unfold shutdown
  simp [h]

/-- C2 (amended): the final sendBatch cycle of shutdown on a running
sender hands the first min(length, BATCH_SIZE) queued entries to the
dispatcher and leaves the rest queued; the queue is fully drained
exactly when it held at most BATCH_SIZE entries at the moment of
shutdown. -/
theorem shutdown_final_flush {α : Type} (s : Sender α) (h : s.stopped = false) :
    (shutdown s).2 = s.logQueue.take BATCH_SIZE ∧
    (shutdown s).1.logQueue = s.logQueue.drop BATCH_SIZE ∧
    (shutdown s).2 ++ (shutdown s).1.logQueue = s.logQueue ∧
    (s.logQueue.length ≤ BATCH_SIZE →
      (shutdown s).2 = s.logQueue ∧ (shutdown s).1.logQueue = []) ∧
    (shutdown s).1.stopped = true := by
  rw [shutdown_running s h]
  obtain ⟨htake, hdrop, hstop, -, -⟩ :=
    sendBatch_eq { s with stopped := true, intervalActive := false }
  refine ⟨htake, hdrop, ?_, ?_, hstop⟩
  · rw [htake, hdrop]
    exact List.take_append_drop _ _
  · intro hlen
    refine ⟨?_, ?_⟩
    · rw [htake]
      exact List.take_of_length_le hlen
    · rw [hdrop]
      exact List.drop_eq_nil_of_le hlen

/-- Witness for C2 at a concrete running sender holding one entry: the
final flush hands over exactly that entry and empties the queue. -/
theorem shutdown_final_flush_witness :
    (shutdown (Sender.mk [7] false true 0 : Sender Nat)).2 = [7] ∧
    (shutdown (Sender.mk [7] false true 0 : Sender Nat)).1.logQueue = [] ∧
    (shutdown (Sender.mk [7] false true 0 : Sender Nat)).1.stopped = true := by
  have h := shutdown_final_flush (Sender.mk [7] false true 0 : Sender Nat) rfl
  have hd := h.2.2.2.1 (by simp [BATCH_SIZE])
  exact ⟨hd.1, hd.2, h.2.2.2.2⟩

/-- Counterexample for C2 as stated: a running sender whose queue holds
1001 entries (within the capacity of 10000) is not fully drained by the
final flush; one entry remains queued after shutdown. -/
theorem shutdown_not_full_drain_counterexample :
    (Sender.mk (List.replicate 1001 (0 : Nat)) false true 0).logQueue.length ≤ QUEUE_CAPACITY ∧
    (shutdown (Sender.mk (List.replicate 1001 (0 : Nat)) false true 0)).1.logQueue ≠ [] := by
  have hq : (shutdown (Sender.mk (List.replicate 1001 (0 : Nat)) false true 0)).1.logQueue
      = (List.replicate 1001 (0 : Nat)).drop BATCH_SIZE := by
    rw [shutdown_running _ rfl]
    exact (sendBatch_eq _).2.1
  constructor
  · show (List.replicate 1001 (0 : Nat)).length ≤ QUEUE_CAPACITY
    rw [List.length_replicate]
    norm_num [QUEUE_CAPACITY]
  · rw [hq]
    intro h
    have hl := congrArg List.length h
    rw [List.length_drop, List.length_replicate] at hl
    norm_num [BATCH_SIZE] at hl

/-- C7: once shutdown has completed, the sender never returns to the
running state: the stopped flag is set, a second shutdown is a no-op
that returns the state unchanged with no final batch, a subsequent
addLog leaves the state (hence the queue length) unchanged, and neither
sendBatch nor flush ever clears the stopped flag. -/
theorem shutdown_idempotent_stays_stopped {α : Type} (s : Sender α) (e : α) :
    (shutdown s).1.stopped = true ∧
    shutdown (shutdown s).1 = ((shutdown s).1, []) ∧
    addLog (shutdown s).1 e = (shutdown s).1 ∧
    (addLog (shutdown s).1 e).logQueue.length = (shutdown s).1.logQueue.length ∧
    (∀ t : Sender α, t.stopped = true → shutdown t = (t, []) ∧ addLog t e = t) ∧
    (∀ t : Sender α, (sendBatch t).1.stopped = t.stopped ∧ (flush t).1.stopped = t.stopped) := by
  have hstopped : (shutdown s).1.stopped = true := by
    by_cases h : s.stopped = true
    · unfold shutdown
      simp [h]
    · rw [Bool.not_eq_true] at h
      rw [shutdown_running s h]
      exact (sendBatch_eq _).2.2.1
  have hgen : ∀ t : Sender α, t.stopped = true → shutdown t = (t, []) ∧ addLog t e = t := by
    intro t ht
    constructor
    · unfold shutdown
      simp [ht]
    · unfold addLog
      simp [ht]
  refine ⟨hstopped, (hgen _ hstopped).1, (hgen _ hstopped).2, ?_, hgen, ?_⟩
  · rw [(hgen _ hstopped).2]
  · intro t
    exact ⟨(sendBatch_eq t).2.2.1, (sendBatch_eq t).2.2.1⟩

/-! ### HTTP dispatch (sender.ts lines 255-300 and 394-414)

The HTTP exchange itself (makeRequest) is a platform interaction; its
possible outcomes are modelled as an explicit input: either the request
threw (network error, timeout, abort) or it produced a status code and a
body whose JSON parse either succeeded or failed.  The body of
sendHTTPRequest is modelled in Except, mirroring the try block; the
catch clause converts any thrown error into a diagnostic and the finally
clause decrements the in-flight counter. -/

/-- Record of one server-reported rejection ({index, message} in the
response's errors array); the index is server-supplied and arbitrary. -/
structure RejectedLog where
  index : Int
  message : String
deriving DecidableEq, Repr

/-- Shape of a parsed server response (types.ts LogBullResponse): accepted
and rejected counts, an optional message and an optional errors array. -/
structure LogBullResponse where
  accepted : Int
  rejected : Int
  message : Option String
  errors : Option (List RejectedLog)
deriving DecidableEq, Repr

/-- One per-entry diagnostic emitted by handleRejectedLogs, correlating a
reported rejection back to the batch entry at its index. -/
structure RejectDiag (α : Type) where
  index : Int
  message : String
  entry : α
deriving DecidableEq, Repr

/-- Possible outcomes of the platform HTTP request: a thrown error
(connection failure, timeout, abort) or a response with a status code
and a body whose JSON parse result is `some` parsed response or `none`
when unparseable. -/
inductive RequestOutcome where
  | thrown (msg : String)
  | response (status : Nat) (body : Option LogBullResponse)
deriving DecidableEq, Repr

/-- Definition of Sender.handleRejectedLogs' reporting loop (sender.ts
lines 400-412): for each reported error record, a per-entry diagnostic
is emitted exactly when 0 ≤ index < sentLogs.length, correlating the
record with the batch entry at that index; out-of-range records are
skipped without touching the batch. -/
def handleRejectedLogs {α : Type} (errors : List RejectedLog) (sentLogs : List α) :
    List (RejectDiag α) :=
  match errors with
  | [] => []
  | err :: rest =>
    if h : 0 ≤ err.index ∧ err.index < (sentLogs.length : Int) then
      ⟨err.index, err.message, sentLogs.get ⟨err.index.toNat, by omega⟩⟩ ::
        handleRejectedLogs rest sentLogs
    else handleRejectedLogs rest sentLogs

/-- Body of the try block of Sender.sendHTTPRequest (sender.ts lines
258-292): a thrown request surfaces as an Except error; a non-(200|202)
status returns early after a diagnostic; an unparseable body is ignored;
a parsed response with rejected > 0 and a present errors array runs the
rejected-log reporting. -/
def dispatchBody {α : Type} (resp : RequestOutcome) (logs : List α) :
    Except String (List (RejectDiag α)) :=
  match resp with
  | .thrown msg => .error msg
  | .response status body =>
    if status ≠ 200 ∧ status ≠ 202 then .ok []
    else
      match body with
      | none => .ok []
      | some r =>
        if 0 < r.rejected then
          match r.errors with
          | some errs => .ok (handleRejectedLogs errs logs)
          | none => .ok []
        else .ok []

/-- Observable result of one whole sendHTTPRequest call: the sender state
after the finally clause, the per-entry rejection diagnostics, the
console diagnostic produced by the catch clause (if the body threw), and
whatever exception escaped past the function's boundary. -/
structure DispatchResult (α : Type) where
  sender : Sender α
  rejectDiags : List (RejectDiag α)
  errorDiag : Option String
  raised : Option String
deriving DecidableEq, Repr

/-- Definition of Sender.sendHTTPRequest (sender.ts lines 255-300): the
in-flight counter is incremented before the request, the try body runs
to one of its outcomes, the catch clause turns a thrown error into a
diagnostic instead of re-raising, and the finally clause decrements the
counter on every exit path. -/
def sendHTTPRequest {α : Type} (s : Sender α) (logs : List α) (resp : RequestOutcome) :
    DispatchResult α :=
  let s1 : Sender α := { s with inFlightRequests := s.inFlightRequests + 1 }
  match dispatchBody resp logs with
  | .ok ds =>
    { sender := { s1 with inFlightRequests := s1.inFlightRequests - 1 },
      rejectDiags := ds, errorDiag := none, raised := none }
  | .error e =>
    { sender := { s1 with inFlightRequests := s1.inFlightRequests - 1 },
      rejectDiags := [], errorDiag := some e, raised := none }

/-- C5: for every dispatch outcome (thrown error, bad status, unparseable
body, or parsed response with or without rejections), sendHTTPRequest
raises nothing past its boundary, restores the in-flight counter to its
value before the dispatch, leaves the rest of the sender state
untouched, and converts a thrown request error into a diagnostic. -/
theorem sendHTTPRequest_counter_balanced {α : Type} (s : Sender α) (logs : List α)
    (resp : RequestOutcome) :
    (sendHTTPRequest s logs resp).raised = none ∧
    (sendHTTPRequest s logs resp).sender.inFlightRequests = s.inFlightRequests ∧
    (sendHTTPRequest s logs resp).sender.logQueue = s.logQueue ∧
    (sendHTTPRequest s logs resp).sender.stopped = s.stopped ∧
    (∀ msg : String, resp = RequestOutcome.thrown msg →
      (sendHTTPRequest s logs resp).errorDiag = some msg) := by
  unfold sendHTTPRequest
  cases hb : dispatchBody resp logs with
  | ok ds =>
    refine ⟨rfl, by simp, rfl, rfl, ?_⟩
    intro msg hmsg
    rw [hmsg] at hb
    simp [dispatchBody] at hb
  | error e =>
    refine ⟨rfl, by simp, rfl, rfl, ?_⟩
    intro msg hmsg
    rw [hmsg] at hb
    simp only [dispatchBody] at hb
    cases hb
    rfl

/-- Helper: the reporting loop in closed form, for a type with a default
element: it is the in-range filter of the error records, each mapped to
a diagnostic holding the batch entry at its index. -/
theorem handleRejectedLogs_closed_form {α : Type} [Inhabited α]
    (errors : List RejectedLog) (sentLogs : List α) :
    handleRejectedLogs errors sentLogs =
      (errors.filter
          (fun err => decide (0 ≤ err.index ∧ err.index < (sentLogs.length : Int)))).map
        (fun err => ⟨err.index, err.message, sentLogs.getD err.index.toNat default⟩) := by
  induction errors with
  | nil => rfl
  | cons err rest ih =>
    unfold handleRejectedLogs
    by_cases h : 0 ≤ err.index ∧ err.index < (sentLogs.length : Int)
    · rw [dif_pos h]
      have hn : err.index.toNat < sentLogs.length := by omega
      rw [List.filter_cons_of_pos (by simpa using h), List.map_cons, ih]
      congr 1
      rw [List.getD_eq_getElem sentLogs default hn]
      rfl
    · rw [dif_neg h, List.filter_cons_of_neg (by simpa using h)]
      exact ih

/-- C9: the reporting of rejected logs is total for arbitrary
server-supplied indices and emits one per-entry diagnostic exactly for
the reported records whose index lies in [0, batch length): the emitted
list is the in-range filter of the records mapped to the entry at their
index, every emitted diagnostic is in range, and the count of emitted
diagnostics is the count of in-range records. -/
theorem handleRejectedLogs_exactly_in_range {α : Type} [Inhabited α]
    (errors : List RejectedLog) (sentLogs : List α) :
    handleRejectedLogs errors sentLogs =
      (errors.filter
          (fun err => decide (0 ≤ err.index ∧ err.index < (sentLogs.length : Int)))).map
        (fun err => ⟨err.index, err.message, sentLogs.getD err.index.toNat default⟩) ∧
    (∀ d ∈ handleRejectedLogs errors sentLogs,
      0 ≤ d.index ∧ d.index < (sentLogs.length : Int)) ∧
    (handleRejectedLogs errors sentLogs).length =
      (errors.filter
          (fun err => decide (0 ≤ err.index ∧ err.index < (sentLogs.length : Int)))).length := by
  refine ⟨handleRejectedLogs_closed_form errors sentLogs, ?_, ?_⟩
  · intro d hd
    induction errors with
    | nil => simp [handleRejectedLogs] at hd
    | cons err rest ih =>
      unfold handleRejectedLogs at hd
      by_cases h : 0 ≤ err.index ∧ err.index < (sentLogs.length : Int)
      · rw [dif_pos h] at hd
        rcases List.mem_cons.mp hd with heq | hmem
        · subst heq
          exact h
        · exact ih hmem
      · rw [dif_neg h] at hd
        exact ih hd
  · rw [handleRejectedLogs_closed_form errors sentLogs, List.length_map]

/-! ### Message formatting (src/internal/formatting.ts)

JavaScript strings are modelled as lists of characters; String.trim and
String.substring act on that list. -/

/-- Whitespace recognised by JavaScript's String.trim (ECMAScript
WhiteSpace and LineTerminator code points; the common ones suffice for
the model). -/
def isJsWhitespace (c : Char) : Bool :=
  c == ' ' || c == '\t' || c == '\n' || c == '\r' || c == '\x0b' || c == '\x0c' || c == ' '

/-- Modelling of String.trim: strips leading and trailing whitespace. -/
def jsTrim (s : List Char) : List Char :=
  ((s.dropWhile isJsWhitespace).reverse.dropWhile isJsWhitespace).reverse

/-- Definition of formatMessage (formatting.ts lines 12-20): trim the
message and, when the trimmed form is longer than MAX_MESSAGE_LENGTH,
truncate it to MAX_MESSAGE_LENGTH - 3 characters followed by three
dots. -/
def formatMessage (message : List Char) : List Char :=
  let trimmed := jsTrim message
  if MAX_MESSAGE_LENGTH < trimmed.length then
    trimmed.take (MAX_MESSAGE_LENGTH - 3) ++ ['.', '.', '.']
  else trimmed

/-- C10: formatMessage returns the trimmed message unchanged when it has
at most 10000 characters, and otherwise its first 9997 characters
followed by three dots; in either case the result never exceeds 10000
characters. -/
theorem formatMessage_truncates (m : List Char) :
    ((jsTrim m).length ≤ 10000 → formatMessage m = jsTrim m) ∧
    (10000 < (jsTrim m).length →
      formatMessage m = (jsTrim m).take 9997 ++ ['.', '.', '.'] ∧
      (formatMessage m).length = 10000) ∧
    (formatMessage m).length ≤ 10000 := by
  unfold formatMessage MAX_MESSAGE_LENGTH
  by_cases h : 10000 < (jsTrim m).length
  · rw [if_pos h]
    refine ⟨fun hle => absurd h (by omega), fun _ => ⟨by norm_num, ?_⟩, ?_⟩
    · rw [List.length_append, List.length_take]
      simp only [List.length_cons, List.length_nil]
      omega
    · rw [List.length_append, List.length_take]
      simp only [List.length_cons, List.length_nil]
      omega
  · rw [if_neg h]
    exact ⟨fun _ => rfl, fun hgt => absurd hgt h, by omega⟩

/-! ### RFC3339Nano timestamp formatting (timestamp.ts lines 30-45)

formatTimestamp splits the nanosecond count into whole seconds and a
nanosecond remainder, converts the seconds to UTC calendar fields
through the JavaScript Date object, pads the fields and concatenates
them.  The Date object's getUTC* accessors are modelled from the
ECMAScript specification of time-value decomposition (proleptic
Gregorian calendar, epoch 1970-01-01T00:00:00Z): for the nonnegative
time values the source produces, the year is found by walking calendar
years from 1970 and the month by walking the month lengths of that
year, exactly as the specification's YearFromTime / MonthFromTime /
DateFromTime characterise them. -/

/-- Gregorian leap-year rule (ECMAScript DaysInYear). -/
def isLeapYear (y : Nat) : Bool :=
  y % 4 == 0 && (y % 100 != 0 || y % 400 == 0)

/-- Number of days of a calendar year. -/
def daysInYear (y : Nat) : Nat :=
  if isLeapYear y then 366 else 365

/-- Month lengths of a calendar year, January first. -/
def monthLengths (y : Nat) : List Nat :=
  [31, if isLeapYear y then 29 else 28, 31, 30, 31, 30, 31, 31, 30, 31, 30, 31]

/-- Decomposition of a day number (days since the epoch) into the calendar
year containing it and the zero-based day within that year, walking
years upward from the given start year. -/
def yearOfDay (y d : Nat) : Nat × Nat :=
  if d < daysInYear y then (y, d)
  else yearOfDay (y + 1) (d - daysInYear y)
termination_by d
decreasing_by
  rename_i h
  have hpos : 0 < daysInYear y := by
    unfold daysInYear
    split <;> omega
  omega

/-- Decomposition of a zero-based day within a year into the one-based
month and one-based day of month, walking the month lengths. -/
def monthOfDay (d : Nat) : List Nat → Nat × Nat
  | [] => (1, d + 1)
  | ml :: rest =>
    if d < ml then (1, d + 1)
    else
      let p := monthOfDay (d - ml) rest
      (p.1 + 1, p.2)

/-- UTC calendar fields of a time value as the source reads them from a
Date object (getUTCFullYear, getUTCMonth + 1, getUTCDate, getUTCHours,
getUTCMinutes, getUTCSeconds). -/
structure DateUTC where
  year : Nat
  month : Nat
  day : Nat
  hour : Nat
  minute : Nat
  second : Nat
deriving DecidableEq, Repr

/-- Modelling of the ECMAScript UTC decomposition of a nonnegative count
of seconds since the epoch, as observed through a Date object's getUTC*
accessors. -/
def dateUTCFromSeconds (s : Nat) : DateUTC :=
  let day := s / 86400
  let yd := yearOfDay 1970 day
  let md := monthOfDay yd.2 (monthLengths yd.1)
  ⟨yd.1, md.1, md.2, s / 3600 % 24, s / 60 % 60, s % 60⟩

/-- Decimal digits of a positive natural number, most significant first,
prepended to an accumulator (the model of JavaScript's String(n) for
integer-valued numbers). -/
def decCharsAux : Nat → List Char → List Char
  | 0, acc => acc
  | n + 1, acc => decCharsAux ((n + 1) / 10) (Char.ofNat (48 + (n + 1) % 10) :: acc)
decreasing_by
  exact Nat.div_lt_self (Nat.succ_pos n) (by omega)

/-- Decimal representation of a natural number as a character list. -/
def decRepr (n : Nat) : List Char :=
  if n = 0 then ['0'] else decCharsAux n []

/-- Modelling of String.prototype.padStart(w, c): left-pads to width `w`
when the string is shorter, otherwise returns it unchanged. -/
def padStart (s : List Char) (w : Nat) (c : Char) : List Char :=
  List.replicate (w - s.length) c ++ s

/-- Definition of formatTimestamp (timestamp.ts lines 30-45, identical in
part_005 lines 231-246): seconds and nanosecond remainder of the count,
UTC calendar fields of the seconds, two-digit zero-padded month, day,
hour, minute and second, nine-digit zero-padded nanoseconds, joined as
YYYY-MM-DDTHH:MM:SS.NNNNNNNNNZ. -/
def formatTimestamp (timestampNs : Nat) : List Char :=
  let seconds := timestampNs / 1000000000
  let nanos := timestampNs % 1000000000
  let d := dateUTCFromSeconds seconds
  decRepr d.year ++ ['-'] ++ padStart (decRepr d.month) 2 '0' ++ ['-'] ++
    padStart (decRepr d.day) 2 '0' ++ ['T'] ++ padStart (decRepr d.hour) 2 '0' ++ [':'] ++
    padStart (decRepr d.minute) 2 '0' ++ [':'] ++ padStart (decRepr d.second) 2 '0' ++
    ['.'] ++ padStart (decRepr nanos) 9 '0' ++ ['Z']

/-- Total number of days of the `n` calendar years starting at year `y`;
the independent re-encoder for the calendar decomposition. -/
def daysFromTo (y : Nat) : Nat → Nat
  | 0 => 0
  | n + 1 => daysInYear y + daysFromTo (y + 1) n

/-- Independent re-encoding of UTC calendar fields into seconds since the
epoch: days of the full years since 1970, plus days of the full months
of the current year, plus full days of the current month, scaled to
seconds, plus the time of day. -/
def civilToSeconds (u : DateUTC) : Nat :=
  (daysFromTo 1970 (u.year - 1970) + ((monthLengths u.year).take (u.month - 1)).sum
      + (u.day - 1)) * 86400 + u.hour * 3600 + u.minute * 60 + u.second

/-! ### Calendar decomposition lemmas -/

/-- Helper: a calendar year has a positive number of days. -/
theorem daysInYear_pos (y : Nat) : 0 < daysInYear y := by
  unfold daysInYear
  split <;> omega

/-- Helper: the year walk lands in the year containing the day number:
the result year is at least the start year, the day-of-year is inside
the result year, and the full years walked over plus the day-of-year
re-encode to the day number. -/
theorem yearOfDay_spec (d : Nat) : ∀ y : Nat,
    y ≤ (yearOfDay y d).1 ∧
    (yearOfDay y d).2 < daysInYear (yearOfDay y d).1 ∧
    daysFromTo y ((yearOfDay y d).1 - y) + (yearOfDay y d).2 = d := by
  induction d using Nat.strong_induction_on with
  | _ d ih =>
    intro y
    unfold yearOfDay
    split
    · rename_i h
      exact ⟨Nat.le_refl y, by simpa using h, by simp [daysFromTo]⟩
    · rename_i h
      push_neg at h
      have hpos := daysInYear_pos y
      have hlt : d - daysInYear y < d := by omega
      obtain ⟨h1, h2, h3⟩ := ih (d - daysInYear y) hlt (y + 1)
      refine ⟨by omega, h2, ?_⟩
      have hsplit : (yearOfDay (y + 1) (d - daysInYear y)).1 - y =
          ((yearOfDay (y + 1) (d - daysInYear y)).1 - (y + 1)) + 1 := by omega
      rw [hsplit, daysFromTo]
      omega

/-- Helper: the month walk lands in the month containing the day-of-year:
one-based month within the list, one-based day within that month, and
the month-length prefix plus the day re-encode to the day-of-year. -/
theorem monthOfDay_spec (ml : List Nat) : ∀ d : Nat, d < ml.sum →
    1 ≤ (monthOfDay d ml).1 ∧
    (monthOfDay d ml).1 ≤ ml.length ∧
    (ml.take ((monthOfDay d ml).1 - 1)).sum + ((monthOfDay d ml).2 - 1) = d ∧
    1 ≤ (monthOfDay d ml).2 ∧
    (monthOfDay d ml).2 ≤ ml.getD ((monthOfDay d ml).1 - 1) 0 := by
  induction ml with
  | nil =>
    intro d hd
    simp at hd
  | cons m rest ih =>
    intro d hd
    unfold monthOfDay
    split
    · rename_i h
      refine ⟨Nat.le_refl 1, by simp, by simp, by omega, ?_⟩
      simpa using h
    · rename_i h
      push_neg at h
      have hd2 : d - m < rest.sum := by
        rw [List.sum_cons] at hd
        omega
      obtain ⟨h1, h2, h3, h4, h5⟩ := ih (d - m) hd2
      simp only []
      refine ⟨by omega, by simp; omega, ?_, h4, ?_⟩
      · have hsplit : (monthOfDay (d - m) rest).1 + 1 - 1 =
            ((monthOfDay (d - m) rest).1 - 1) + 1 := by omega
        rw [hsplit, List.take_succ_cons, List.sum_cons]
        omega
      · have hsplit : (monthOfDay (d - m) rest).1 + 1 - 1 =
            ((monthOfDay (d - m) rest).1 - 1) + 1 := by omega
        rw [hsplit, List.getD_cons_succ]
        exact h5

/-- Helper: the month lengths of a year cover exactly its days. -/
theorem monthLengths_sum (y : Nat) : (monthLengths y).sum = daysInYear y := by
  cases h : isLeapYear y <;> simp [monthLengths, daysInYear, h]

/-- Helper: a year has twelve months. -/
theorem monthLengths_length (y : Nat) : (monthLengths y).length = 12 := by
  cases h : isLeapYear y <;> simp [monthLengths, h]

/-- Helper: every month length is at most 31. -/
theorem monthLengths_mem_le (y x : Nat) (hx : x ∈ monthLengths y) : x ≤ 31 := by
  cases h : isLeapYear y
  · have hx2 : x ∈ [31, 28, 31, 30, 31, 30, 31, 31, 30, 31, 30, 31] := by
      rw [monthLengths, h] at hx
      simpa using hx
    fin_cases hx2 <;> omega
  · have hx2 : x ∈ [31, 29, 31, 30, 31, 30, 31, 31, 30, 31, 30, 31] := by
      rw [monthLengths, h] at hx
      simpa using hx
    fin_cases hx2 <;> omega

/-- Helper: no month is longer than 31 days. -/
theorem monthLengths_getD_le (y i : Nat) : (monthLengths y).getD i 0 ≤ 31 := by
  by_cases hi : i < (monthLengths y).length
  · have hmem : (monthLengths y).getD i 0 ∈ monthLengths y := by
      rw [List.getD_eq_getElem _ _ hi]
      exact List.getElem_mem hi
    exact monthLengths_mem_le y _ hmem
  · rw [List.getD_eq_default _ _ (by omega)]
    omega

/-- Helper: the UTC decomposition of a nonnegative second count is a valid
calendar date from 1970 on, and the independent re-encoding of its
fields restores the second count. -/
theorem dateUTCFromSeconds_spec (s : Nat) :
    1970 ≤ (dateUTCFromSeconds s).year ∧
    1 ≤ (dateUTCFromSeconds s).month ∧ (dateUTCFromSeconds s).month ≤ 12 ∧
    1 ≤ (dateUTCFromSeconds s).day ∧ (dateUTCFromSeconds s).day ≤ 31 ∧
    (dateUTCFromSeconds s).hour < 24 ∧
    (dateUTCFromSeconds s).minute < 60 ∧
    (dateUTCFromSeconds s).second < 60 ∧
    civilToSeconds (dateUTCFromSeconds s) = s := by
  obtain ⟨hy1, hy2, hy3⟩ := yearOfDay_spec (s / 86400) 1970
  have hdoy : (yearOfDay 1970 (s / 86400)).2 <
      (monthLengths (yearOfDay 1970 (s / 86400)).1).sum := by
    rw [monthLengths_sum]
    exact hy2
  obtain ⟨hm1, hm2, hm3, hm4, hm5⟩ :=
    monthOfDay_spec (monthLengths (yearOfDay 1970 (s / 86400)).1)
      (yearOfDay 1970 (s / 86400)).2 hdoy
  rw [monthLengths_length] at hm2
  have hd31 : (monthOfDay (yearOfDay 1970 (s / 86400)).2
      (monthLengths (yearOfDay 1970 (s / 86400)).1)).2 ≤ 31 :=
    le_trans hm5 (monthLengths_getD_le _ _)
  have hyear : (dateUTCFromSeconds s).year = (yearOfDay 1970 (s / 86400)).1 := rfl
  have hmonth : (dateUTCFromSeconds s).month = (monthOfDay (yearOfDay 1970 (s / 86400)).2
      (monthLengths (yearOfDay 1970 (s / 86400)).1)).1 := rfl
  have hday : (dateUTCFromSeconds s).day = (monthOfDay (yearOfDay 1970 (s / 86400)).2
      (monthLengths (yearOfDay 1970 (s / 86400)).1)).2 := rfl
  have hhour : (dateUTCFromSeconds s).hour = s / 3600 % 24 := rfl
  have hminute : (dateUTCFromSeconds s).minute = s / 60 % 60 := rfl
  have hsecond : (dateUTCFromSeconds s).second = s % 60 := rfl
  refine ⟨by rw [hyear]; exact hy1, by rw [hmonth]; exact hm1, by rw [hmonth]; exact hm2,
    by rw [hday]; exact hm4, by rw [hday]; exact hd31,
    by rw [hhour]; omega, by rw [hminute]; omega, by rw [hsecond]; omega, ?_⟩
  unfold civilToSeconds
  rw [hyear, hmonth, hday, hhour, hminute, hsecond]
  omega

/-! ### Decimal representation lemmas -/

/-- Helper: the digit accumulator only grows. -/
theorem decCharsAux_length_mono (n : Nat) : ∀ acc : List Char,
    acc.length ≤ (decCharsAux n acc).length := by
  induction n using Nat.strong_induction_on with
  | _ n ih =>
    intro acc
    match n with
    | 0 => simp [decCharsAux]
    | m + 1 =>
      rw [decCharsAux]
      have h1 := ih ((m + 1) / 10) (Nat.div_lt_self (Nat.succ_pos m) (by omega))
        (Char.ofNat (48 + (m + 1) % 10) :: acc)
      simp only [List.length_cons] at h1
      omega

/-- Helper: a number below 10 ^ k has at most k digits. -/
theorem decCharsAux_length_le (n : Nat) : ∀ (k : Nat) (acc : List Char), n < 10 ^ k →
    (decCharsAux n acc).length ≤ k + acc.length := by
  induction n using Nat.strong_induction_on with
  | _ n ih =>
    intro k acc hk
    match n with
    | 0 => simp [decCharsAux]
    | m + 1 =>
      rw [decCharsAux]
      match k with
      | 0 =>
        simp at hk
      | j + 1 =>
        have hdiv : (m + 1) / 10 < 10 ^ j := by
          rw [Nat.div_lt_iff_lt_mul (by omega)]
          calc m + 1 < 10 ^ (j + 1) := hk
            _ = 10 ^ j * 10 := by rw [pow_succ]
        have h1 := ih ((m + 1) / 10) (Nat.div_lt_self (Nat.succ_pos m) (by omega))
          j (Char.ofNat (48 + (m + 1) % 10) :: acc) hdiv
        simp only [List.length_cons] at h1
        omega

/-- Helper: a number at least 10 ^ k has more than k digits. -/
theorem decCharsAux_length_ge (n : Nat) : ∀ (k : Nat) (acc : List Char), 10 ^ k ≤ n →
    k + 1 + acc.length ≤ (decCharsAux n acc).length := by
  induction n using Nat.strong_induction_on with
  | _ n ih =>
    intro k acc hk
    match n with
    | 0 =>
      have : 0 < 10 ^ k := Nat.pos_pow_of_pos k (by omega)
      omega
    | m + 1 =>
      rw [decCharsAux]
      match k with
      | 0 =>
        have h1 := decCharsAux_length_mono ((m + 1) / 10)
          (Char.ofNat (48 + (m + 1) % 10) :: acc)
        simp only [List.length_cons] at h1
        omega
      | j + 1 =>
        have hdiv : 10 ^ j ≤ (m + 1) / 10 := by
          rw [Nat.le_div_iff_mul_le (by omega)]
          calc 10 ^ j * 10 = 10 ^ (j + 1) := by rw [pow_succ]
            _ ≤ m + 1 := hk
        have h1 := ih ((m + 1) / 10) (Nat.div_lt_self (Nat.succ_pos m) (by omega))
          j (Char.ofNat (48 + (m + 1) % 10) :: acc) hdiv
        simp only [List.length_cons] at h1
        omega

/-- Helper: a number below 100 prints with at most two characters. -/
theorem decRepr_le_two (n : Nat) (h : n < 100) : (decRepr n).length ≤ 2 := by
  unfold decRepr
  split
  · simp
  · have := decCharsAux_length_le n 2 [] (by norm_num; omega)
    simpa using this

/-- Helper: a number below 10 ^ 9 prints with at most nine characters. -/
theorem decRepr_le_nine (n : Nat) (h : n < 1000000000) : (decRepr n).length ≤ 9 := by
  unfold decRepr
  split
  · simp
  · have := decCharsAux_length_le n 9 [] (by norm_num; omega)
    simpa using this

/-- Helper: a number at least 1000 prints with at least four characters. -/
theorem decRepr_ge_four (n : Nat) (h : 1000 ≤ n) : 4 ≤ (decRepr n).length := by
  unfold decRepr
  split
  · omega
  · have := decCharsAux_length_ge n 3 [] (by norm_num; omega)
    simpa using this

/-- Helper: padStart pads a short string to exactly the target width. -/
theorem padStart_length_eq (s : List Char) (w : Nat) (c : Char) (h : s.length ≤ w) :
    (padStart s w c).length = w := by
  unfold padStart
  rw [List.length_append, List.length_replicate]
  omega

/-- C8: for every nonnegative nanosecond count, the formatted timestamp is
the concatenation year, dash, two-digit month, dash, two-digit day, T,
two-digit hour, colon, two-digit minute, colon, two-digit second, dot,
nine fractional digits equal to ns mod 10^9 left-padded with zeros, and
a terminal Z with no timezone offset; the calendar fields are the UTC
decomposition of ns / 10^9 seconds since the epoch, witnessed by the
independent re-encoding restoring that second count, and each padded
field has exactly the claimed width. -/
theorem formatTimestamp_rfc3339 (ns : Nat) :
    formatTimestamp ns =
      decRepr (dateUTCFromSeconds (ns / 1000000000)).year ++ ['-'] ++
      padStart (decRepr (dateUTCFromSeconds (ns / 1000000000)).month) 2 '0' ++ ['-'] ++
      padStart (decRepr (dateUTCFromSeconds (ns / 1000000000)).day) 2 '0' ++ ['T'] ++
      padStart (decRepr (dateUTCFromSeconds (ns / 1000000000)).hour) 2 '0' ++ [':'] ++
      padStart (decRepr (dateUTCFromSeconds (ns / 1000000000)).minute) 2 '0' ++ [':'] ++
      padStart (decRepr (dateUTCFromSeconds (ns / 1000000000)).second) 2 '0' ++ ['.'] ++
      padStart (decRepr (ns % 1000000000)) 9 '0' ++ ['Z'] ∧
    civilToSeconds (dateUTCFromSeconds (ns / 1000000000)) = ns / 1000000000 ∧
    1970 ≤ (dateUTCFromSeconds (ns / 1000000000)).year ∧
    4 ≤ (decRepr (dateUTCFromSeconds (ns / 1000000000)).year).length ∧
    (padStart (decRepr (dateUTCFromSeconds (ns / 1000000000)).month) 2 '0').length = 2 ∧
    (padStart (decRepr (dateUTCFromSeconds (ns / 1000000000)).day) 2 '0').length = 2 ∧
    (padStart (decRepr (dateUTCFromSeconds (ns / 1000000000)).hour) 2 '0').length = 2 ∧
    (padStart (decRepr (dateUTCFromSeconds (ns / 1000000000)).minute) 2 '0').length = 2 ∧
    (padStart (decRepr (dateUTCFromSeconds (ns / 1000000000)).second) 2 '0').length = 2 ∧
    (padStart (decRepr (ns % 1000000000)) 9 '0').length = 9 := by
  obtain ⟨hy1970, hm1, hm12, hd1, hd31, hh, hmi, hs, henc⟩ :=
    dateUTCFromSeconds_spec (ns / 1000000000)
  refine ⟨rfl, henc, hy1970, decRepr_ge_four _ (by omega),
    padStart_length_eq _ _ _ (decRepr_le_two _ (by omega)),
    padStart_length_eq _ _ _ (decRepr_le_two _ (by omega)),
    padStart_length_eq _ _ _ (decRepr_le_two _ (by omega)),
    padStart_length_eq _ _ _ (decRepr_le_two _ (by omega)),
    padStart_length_eq _ _ _ (decRepr_le_two _ (by omega)),
    padStart_length_eq _ _ _ (decRepr_le_nine _ (by omega))⟩

end LogBull
